import Mathlib

/-!
Verification of the NetMount server (netmount-server) against its
specification.  The definitions below are a shallow embedding of the relevant
parts of `netmount-server.cpp` and `fs.cpp`: packets are lists of byte values
(`Nat`, meant `< 256`), 16-bit arithmetic is `Nat` arithmetic modulo 2^16,
`std::set<fcb_file_name>` is a duplicate-free list, and the per-request
filesystem side effects are abstracted into an explicit state parameter where
a claim needs them.
-/

/-! ### Byte-level primitives (utils.hpp and the wire layout) -/

/-- Packets and buffers are lists of byte values. -/
abbrev Bytes := List Nat

/-- Reads the byte at offset `i` (out of range reads 0). -/
def getByte (p : Bytes) (i : Nat) : Nat := p.getD i 0

/-- Overwrites the byte at offset `i`; out-of-range writes are dropped. -/
def setByte : Bytes → Nat → Nat → Bytes
  | [], _, _ => []
  | _ :: bs, 0, v => v :: bs
  | b :: bs, i + 1, v => b :: setByte bs i v

/-- from_little16 (utils.hpp) applied to the two bytes at offset `i`. -/
def le16 (p : Bytes) (i : Nat) : Nat := getByte p i + 256 * getByte p (i + 1)

/-- to_little16: stores a 16-bit value at offset `i`, low byte first. -/
def write_le16 (p : Bytes) (i v : Nat) : Bytes :=
  setByte (setByte p i (v % 256)) (i + 1) (v / 256 % 256)

/-- ascii_to_upper (utils.hpp). -/
def ascii_to_upper (c : Nat) : Nat := if 97 ≤ c ∧ c ≤ 122 then c - 32 else c

/-- ascii_to_lower (utils.hpp). -/
def ascii_to_lower (c : Nat) : Nat := if 65 ≤ c ∧ c ≤ 90 then c + 32 else c

/-! ### Protocol constants

Modelled from the spec: the numeric protocol constants live in the missing
`shared/drvproto.h` / `shared/dos.h` headers.  The spec (§6) fixes the header
layout (version, sequence, function, drive, ax, length_flags, checksum: 10
bytes) and says the version must equal `DRIVE_PROTO_VERSION`, the checksum
field may hold a fixed magic constant, and drives are indexed `0..25`
(`MAX_DRIVERS_COUNT` = 26).  The theorems below do not depend on the
particular values of `DRIVE_PROTO_VERSION` and `DRIVE_PROTO_MAGIC`. -/

/-- Modelled from the spec: the single supported protocol version byte. -/
def DRIVE_PROTO_VERSION : Nat := 1

/-- Modelled from the spec: the fixed magic constant carried in the checksum
field when the checksum flag is clear. -/
def DRIVE_PROTO_MAGIC : Nat := 0xB0BD

/-- Size of `struct drive_proto_hdr` (spec §6 wire layout): 10 bytes. -/
def HDR_SIZE : Nat := 10

/-- Modelled from the spec: number of drive letters A..Z handled by the drive
table (drive index must be in 2..25, `reqdrv >= MAX_DRIVERS_COUNT` rejects). -/
def MAX_DRIVERS_COUNT : Nat := 26

/-- Modelled from the spec: `DOS_EXTERR_NO_ERROR` (missing shared/dos.h); the
standard DOS "no error" code is 0. -/
def DOS_EXTERR_NO_ERROR : Nat := 0

/-! ### BSD checksum (netmount-server.cpp, bsd_checksum) -/

/-- bsd_checksum (netmount-server.cpp lines 738-747): `res` is a uint16_t and
each step executes `res = (res << 15) | (res >> 1); res += *ptr;`, the
assignments truncating to 16 bits. -/
def bsd_checksum (l : Bytes) : Nat :=
  l.foldl (fun res b => ((res <<< 15 ||| res >>> 1) % 65536 + b) % 65536) 0

/-- Specification-side 16-bit rotation right by one place: the low bit moves
to bit 15, the other bits shift down (spec §4.1, BSD checksum definition). -/
def rotr16 (a : Nat) : Nat := a % 2 * 32768 + a / 2

/-- Specification-side BSD checksum: starting from 0, for each byte `b` set
`acc = rotate_right(acc, 1) + b` with arithmetic modulo 2^16 (spec wording). -/
def bsd_checksum_spec (l : Bytes) : Nat :=
  l.foldl (fun acc b => (rotr16 acc + b) % 65536) 0

/-! ### Receive-side validation pipeline (main loop of netmount-server.cpp) -/

/-- Validation pipeline applied to every received datagram (netmount-server.cpp
main(), lines 981-1068): drop short datagrams, check the version byte, read
`length_flags` (note the source masks it with 0x7FF), check the advertised
length against the header size and the datagram length, truncate the datagram
to the advertised length, then verify the BSD checksum (checksum flag set) or
the magic constant (flag clear).  Returns the truncated request, or `none`
when the datagram is dropped. -/
def validate_packet (packet : Bytes) : Option Bytes :=
  if packet.length < HDR_SIZE then none
  else if getByte packet 0 ≠ DRIVE_PROTO_VERSION then none
  else
    let cksumflag := le16 packet 6 >>> 15
    let length_from_header := le16 packet 6 &&& 0x7FF
    if length_from_header < HDR_SIZE then none
    else if packet.length < length_from_header then none
    else
      let p := packet.take length_from_header
      if cksumflag ≠ 0 then
        if bsd_checksum (p.drop HDR_SIZE) = le16 packet 8 then some p else none
      else if le16 packet 8 = DRIVE_PROTO_MAGIC then some p else none

/-! ### Reply cache and the request/reply round trip -/

/-- ReplyCache::ReplyInfo (netmount-server.cpp lines 38-50): the last reply
packet sent to a peer, its length (0 marks invalid content) and timestamp. -/
structure ReplyInfo where
  packet : Bytes
  len : Nat
  timestamp : Nat
deriving Repr, DecidableEq

/-- Reply-header finalization before sending (netmount-server.cpp main(),
lines 1088-1102): store the total length in `length_flags`, then either
compute the BSD checksum over the bytes after the checksum field and set the
checksum flag (bit 15 of `length_flags`, i.e. bit 7 of byte 7), or store the
magic constant and clear the flag.  The flag choice mirrors the incoming
request's checksum flag. -/
def finalize_header (cksumflag : Bool) (p : Bytes) (msglen : Nat) : Bytes :=
  let p1 := write_le16 p 6 (msglen % 65536)
  if cksumflag then
    let ck := bsd_checksum ((p1.take msglen).drop HDR_SIZE)
    let p2 := write_le16 p1 8 ck
    setByte p2 7 (getByte p2 7 ||| 0x80)
  else
    let p2 := write_le16 p1 8 DRIVE_PROTO_MAGIC
    setByte p2 7 (getByte p2 7 &&& 0x7F)

/-- process_request (netmount-server.cpp lines 130-688) up to the function
dispatch.  The big per-function switch is kept as the parameter `dispatch`:
it receives the filesystem state, the request and the initialized reply
packet, and returns the new state, the new reply packet and `some
reply_packet_len` (body length) or `none` (drop).  Before the switch the
source: drops requests shorter than the header; resends a cached reply with
the same sequence number; copies the request header into the reply; rejects
drive numbers outside 2..25 and drives that are not shared; initializes `ax`
to NO_ERROR.  Returns the updated cache entry, the state, and `some
send_msg_len` or `none` (-1 in the source). -/
def process_request {σ : Type} (shared : Nat → Bool)
    (dispatch : σ → Bytes → Bytes → σ × Bytes × Option Nat)
    (reply : ReplyInfo) (fs : σ) (request : Bytes) : ReplyInfo × σ × Option Nat :=
  if request.length < HDR_SIZE then (reply, fs, none)
  else if 0 < reply.len ∧ getByte reply.packet 1 = getByte request 1 then
    (reply, fs, some reply.len)
  else
    let rpkt := request.take HDR_SIZE ++ reply.packet.drop HDR_SIZE
    let reqdrv := getByte request 3 &&& 0x1F
    if reqdrv < 2 ∨ MAX_DRIVERS_COUNT ≤ reqdrv then ({ reply with packet := rpkt }, fs, none)
    else if ¬ shared reqdrv then ({ reply with packet := rpkt }, fs, none)
    else
      let rpkt := write_le16 rpkt 4 DOS_EXTERR_NO_ERROR
      match dispatch fs request rpkt with
      | (fs2, rpkt2, none) => ({ reply with packet := rpkt2 }, fs2, none)
      | (fs2, rpkt2, some body_len) =>
        ({ reply with packet := rpkt2 }, fs2, some (body_len + HDR_SIZE))

/-- One full datagram round trip of the main loop (netmount-server.cpp lines
981-1113): validate, look up the reply-cache entry for the peer (the entry is
a parameter: the claims condition on its content), process the request,
update the cache entry length and timestamp, finalize the reply header and
send the first `send_msg_len` bytes.  Returns (sent datagram or none, updated
cache entry, filesystem state). -/
def handle_datagram {σ : Type} (shared : Nat → Bool)
    (dispatch : σ → Bytes → Bytes → σ × Bytes × Option Nat)
    (entry : ReplyInfo) (fs : σ) (datagram : Bytes) (now : Nat) :
    Option Bytes × ReplyInfo × σ :=
  match validate_packet datagram with
  | none => (none, entry, fs)
  | some req =>
    let cksumflag := le16 datagram 6 >>> 15 != 0
    match process_request shared dispatch entry fs req with
    | (ri, fs2, none) => (none, { ri with len := 0 }, fs2)
    | (ri, fs2, some msglen) =>
      let ri2 : ReplyInfo := { ri with len := msglen, timestamp := now }
      if 0 < msglen then
        let pkt := finalize_header cksumflag ri2.packet msglen
        (some (pkt.take msglen), { ri2 with packet := pkt }, fs2)
      else (none, ri2, fs2)

/-! ### FCB names and find_file (fs.cpp) -/

/-- fcb_file_name: 8 base bytes and 3 extension bytes, blank padded. -/
structure FcbName where
  base : List Nat
  ext : List Nat
deriving Repr, DecidableEq

/-- FAT attribute bits (fs.hpp). -/
def FAT_RO : Nat := 0x01

/-- FAT HIDDEN attribute bit (fs.hpp). -/
def FAT_HIDDEN : Nat := 0x02

/-- FAT SYSTEM attribute bit (fs.hpp). -/
def FAT_SYSTEM : Nat := 0x04

/-- FAT VOLUME attribute bit (fs.hpp). -/
def FAT_VOLUME : Nat := 0x08

/-- FAT DIRECTORY attribute bit (fs.hpp). -/
def FAT_DIRECTORY : Nat := 0x10

/-- FAT ARCHIVE attribute bit (fs.hpp). -/
def FAT_ARCHIVE : Nat := 0x20

/-- Inner loop of match_fcb_name_to_mask over one field (fs.cpp lines
101-112): a mask byte matches if it compares equal case-insensitively or is
the single-character wildcard. -/
def match_field : List Nat → List Nat → Bool
  | [], [] => true
  | m :: ms, c :: cs =>
    (ascii_to_upper c == ascii_to_upper m || m == 63) && match_field ms cs
  | _, _ => false

/-- match_fcb_name_to_mask (fs.cpp lines 100-114). -/
def match_fcb_name_to_mask (mask name : FcbName) : Bool :=
  match_field mask.base name.base && match_field mask.ext name.ext

/-- One cached directory-listing entry, reduced to the fields `find_file`
inspects: the FCB name and the DOS attribute byte. -/
structure DirEntry where
  fcb_name : FcbName
  attrs : Nat
deriving Repr, DecidableEq

/-- Default DirEntry used to totalize list indexing in statements. -/
def dentry0 : DirEntry := ⟨⟨List.replicate 8 32, List.replicate 3 32⟩, 0⟩

/-- Attribute filter of Drive::find_file (fs.cpp lines 355-364): searching
exactly for VOLUME keeps only volume entries; otherwise the entry must not
carry a HIDDEN, SYSTEM or DIRECTORY bit that `attr` does not include. -/
def attr_filter (attr : Nat) (eattrs : Nat) : Bool :=
  if attr == FAT_VOLUME then eattrs &&& FAT_VOLUME != 0
  else (attr ||| (eattrs &&& (FAT_HIDDEN ||| FAT_SYSTEM ||| FAT_DIRECTORY))) == attr

/-- Pass condition of the scan loop in Drive::find_file (fs.cpp lines
346-368): in the drive root, entries whose FCB base begins with '.' are
skipped; then the FCB mask must match and the attribute filter must accept. -/
def find_passes (is_root_dir : Bool) (tmpl : FcbName) (attr : Nat) (e : DirEntry) : Bool :=
  !(is_root_dir && e.fcb_name.base.headD 0 == 46) &&
    match_fcb_name_to_mask tmpl e.fcb_name && attr_filter attr e.attrs

/-- Scan of the tail of the listing: `rest` is the suffix of the listing that
starts at index `n`; returns the first index whose entry satisfies `p`. -/
def find_from_go (p : DirEntry → Bool) : List DirEntry → Nat → Option Nat
  | [], _ => none
  | e :: rest, n => if p e then some n else find_from_go p rest (n + 1)

/-- The scan loop `for (n = nth; n < item_count; ++n)` of Drive::find_file. -/
def find_from (p : DirEntry → Bool) (l : List DirEntry) (nth : Nat) : Option Nat :=
  find_from_go p (l.drop nth) nth

/-- Search part of Drive::find_file (fs.cpp lines 342-377) over the cached
listing: on a hit, `nth` is updated to one past the matched index and the
matched entry's properties are returned. -/
def find_file (is_root_dir : Bool) (tmpl : FcbName) (attr : Nat)
    (directory_list : List DirEntry) (nth : Nat) : Option (Nat × DirEntry) :=
  match find_from (find_passes is_root_dir tmpl attr) directory_list nth with
  | some n => some (n + 1, directory_list.getD n dentry0)
  | none => none

/-- Claim-side first match (the wording of claim C4): the first entry at index
`≥ nth` that matches the mask and passes the attribute filter, with no
root-directory exception. -/
def claim_first_match (tmpl : FcbName) (attr : Nat) (l : List DirEntry) (nth : Nat) :
    Option Nat :=
  find_from (fun e => match_fcb_name_to_mask tmpl e.fcb_name && attr_filter attr e.attrs) l nth

/-! ### 8.3 name synthesis (fs.cpp, sanitize_short_name / file_name_to_83) -/

/-- Allowed special characters of sanitize_short_name (fs.cpp lines 698-699):
`! # $ % & ' ( ) - @ ^ _ ` { } ~` as byte values. -/
def allowed_special : List Nat := [33, 35, 36, 37, 38, 39, 40, 41, 45, 64, 94, 95, 96, 123, 125, 126]

/-- Index comparison against `find_last_not_of(' ')`, whose result is npos
(never smaller than any index) when the input is all spaces. -/
def before_last_non_space (lastNonSpace : Option Nat) (idx : Nat) : Bool :=
  match lastNonSpace with
  | some k => idx < k
  | none => true

/-- Index of the last byte that is not a space, or `none`. -/
def find_last_not_space (l : List Nat) : Option Nat :=
  (l.reverse.findIdx? (· != 32)).map (fun i => l.length - 1 - i)

/-- Character loop of sanitize_short_name (fs.cpp lines 704-727): `out` is
the output built so far, `idx` the current input index, `sh` the shortened
flag.  When the output buffer is full the source returns early with the
shortened flag set. -/
def sanitize_go (lastNonSpace : Option Nat) (bufSize : Nat) :
    List Nat → Nat → List Nat → Bool → List Nat × Bool
  | [], _, out, sh => (out, sh)
  | c :: rest, idx, out, sh =>
    if out.length = bufSize then (out, true)
    else if (65 ≤ c ∧ c ≤ 90) ∨ (48 ≤ c ∧ c ≤ 57) ∨ c ∈ allowed_special then
      sanitize_go lastNonSpace bufSize rest (idx + 1) (out ++ [c]) sh
    else if 97 ≤ c ∧ c ≤ 122 then
      sanitize_go lastNonSpace bufSize rest (idx + 1) (out ++ [c - 32]) sh
    else if c = 32 ∧ before_last_non_space lastNonSpace idx then
      sanitize_go lastNonSpace bufSize rest (idx + 1) (out ++ [c]) sh
    else
      sanitize_go lastNonSpace bufSize rest (idx + 1) out true

/-- sanitize_short_name (fs.cpp lines 696-735): uppercases ASCII letters,
keeps digits and allowed punctuation, keeps interior spaces, drops every
other character setting the shortened flag, and pads the buffer with trailing
blanks.  Returns (out_len, shortened, padded buffer of length `bufSize`). -/
def sanitize_short_name (input : List Nat) (bufSize : Nat) : Nat × Bool × List Nat :=
  let r := sanitize_go (find_last_not_space input) bufSize input 0 [] false
  (r.1.length, r.2, r.1 ++ List.replicate (bufSize - r.1.length) 32)

/-- Decimal digit characters written by std::to_chars for a counter in the
range 1..9999 handled by the collision loop. -/
def dec_digits (n : Nat) : List Nat :=
  (if 1000 ≤ n then [48 + n / 1000 % 10] else []) ++
    (if 100 ≤ n then [48 + n / 100 % 10] else []) ++
      (if 10 ≤ n then [48 + n / 10 % 10] else []) ++ [48 + n % 10]

/-- Overwrites the bytes of `buf` starting at index `i` with the bytes of
`vs`; the rest of `buf` keeps its old content. -/
def writeAt : List Nat → Nat → List Nat → List Nat
  | buf, _, [] => buf
  | [], _, _ => []
  | _ :: bs, 0, v :: vs => v :: writeAt bs 0 vs
  | b :: bs, i + 1, vs => b :: writeAt bs i vs

/-- std::set<fcb_file_name>::insert: returns the set and whether the element
was inserted (false when it was already present). -/
def set_insert (s : List FcbName) (x : FcbName) : List FcbName × Bool :=
  if x ∈ s then (s, false) else (x :: s, true)

/-- Digit count of the suffix counter as the source's ternary chain computes
it (`counter > 999 ? 4 : (counter > 99 ? 3 : (counter > 9 ? 2 : 1))`). -/
def counter_suffix_len (counter : Nat) : Nat :=
  if 999 < counter then 4 else if 99 < counter then 3 else if 9 < counter then 2 else 1

/-- Base length after the trim `if (base_len + counter_len > 7) base_len =
7 - counter_len`, so that `~<counter>` fits inside the 8-byte base field. -/
def trimmed_base_len (base_len counter : Nat) : Nat :=
  if 7 < base_len + counter_suffix_len counter then 7 - counter_suffix_len counter
  else base_len

/-- One suffixed candidate base buffer: `~` at the trimmed base length
followed by the decimal digits of the counter; bytes after the digits keep
their previous content (std::to_chars writes no terminator). -/
def suffix_attempt (base_buf : List Nat) (base_len counter : Nat) : List Nat :=
  writeAt base_buf (trimmed_base_len base_len counter) (126 :: dec_digits counter)

/-- Body of the collision-resolution loop of file_name_to_83 (fs.cpp lines
760-774), one iteration per remaining unit of `fuel`: trim the base so that
`~<counter>` fits within 8 bytes, overwrite the buffer tail with `~` and the
decimal digits, and accept the first name that enters the set.  `fuel` is the
number of loop iterations left, `9999 - counter`, so the loop runs for
`counter = 1, 2, ..., 9998` exactly as `for (counter = 1; counter < 9999;
++counter)` does, and returns false afterwards. -/
def suffix_loop_go (ext_buf : List Nat) :
    Nat → Nat → List Nat → Nat → List FcbName → Bool × FcbName × List FcbName
  | 0, _, base_buf, _, used => (false, ⟨base_buf, ext_buf⟩, used)
  | fuel + 1, counter, base_buf, base_len, used =>
    let buf := suffix_attempt base_buf base_len counter
    let fcb : FcbName := ⟨buf, ext_buf⟩
    match set_insert used fcb with
    | (used2, true) => (true, fcb, used2)
    | _ => suffix_loop_go ext_buf fuel (counter + 1) buf (trimmed_base_len base_len counter) used

/-- Collision-resolution loop of file_name_to_83 entered at `counter`. -/
def suffix_loop (counter : Nat) (base_buf : List Nat) (base_len : Nat)
    (used : List FcbName) (ext_buf : List Nat) : Bool × FcbName × List FcbName :=
  suffix_loop_go ext_buf (9999 - counter) counter base_buf base_len used

/-- Splits a file name at the last '.' into base and extension (fs.cpp lines
739-747); a name with no dot has an empty extension. -/
def split_last_dot (l : List Nat) : List Nat × List Nat :=
  match l.reverse.findIdx? (· == 46) with
  | none => (l, [])
  | some i => (l.take (l.length - 1 - i), l.drop (l.length - i))

/-- file_name_to_83 (fs.cpp lines 738-778): sanitize base and extension; a
name that was not shortened and is not yet in `used_names` is accepted as is;
otherwise the `~N` collision loop runs starting at N = 1.  Returns (success,
FCB name as left in the output argument, updated set). -/
def file_name_to_83 (long_name : List Nat) (used : List FcbName) :
    Bool × FcbName × List FcbName :=
  let be := split_last_dot long_name
  let rbase := sanitize_short_name be.1 8
  let rext := sanitize_short_name be.2 3
  let fcb : FcbName := ⟨rbase.2.2, rext.2.2⟩
  if !rbase.2.1 && !rext.2.1 then
    match set_insert used fcb with
    | (used2, true) => (true, fcb, used2)
    | _ => suffix_loop 1 rbase.2.2 rbase.1 used rext.2.2
  else suffix_loop 1 rbase.2.2 rbase.1 used rext.2.2

/-- short_name_to_fcb (fs.cpp lines 645-691): up to two leading dots enter
the base verbatim; then base characters up to the next dot, at most 8 total,
uppercased and blank padded; the extension is read after the following dot,
at most 3 characters, stopped by a further dot. -/
def short_name_to_fcb (s : List Nat) : FcbName :=
  let nDots := min (s.takeWhile (· == 46)).length 2
  let rest1 := s.drop nDots
  let baseChars := ((rest1.takeWhile (· != 46)).take (8 - nDots)).map ascii_to_upper
  let base := List.replicate nDots 46 ++ baseChars ++
    List.replicate (8 - (nDots + baseChars.length)) 32
  let rest2 := rest1.drop (min (rest1.takeWhile (· != 46)).length (8 - nDots))
  let rest3 := (rest2.dropWhile (· != 46)).tail
  let extChars := ((rest3.takeWhile (· != 46)).take 3).map ascii_to_upper
  ⟨base, extChars ++ List.replicate (3 - extChars.length) 32⟩

/-! ### Directory listing construction (fs.cpp, Drive::Item::create_directory_list) -/

/-- name_conversion mode of a drive (fs.hpp FileNameConversion). -/
inductive NameConv
  | off
  | ram
deriving Repr, DecidableEq

/-- Loop of Drive::Item::create_directory_list (fs.cpp lines 591-630) over an
abstract enumeration of the native directory's file names (stat metadata is
dropped: the claims concern only FCB names and the witness set).  On the
first entry the synthesized '.' and '..' entries are prefixed; from then on
enumeration stops once the listing holds 65535 entries.  In RAM mode each
entry's FCB name comes from file_name_to_83 (whose success flag the source
discards; it is recorded in the third component), in OFF mode from
short_name_to_fcb via get_path_dos_properties. -/
def cdl_go (mode : NameConv) :
    List (List Nat) → List FcbName → List FcbName → Bool →
      List FcbName × List FcbName × Bool
  | [], dl, s, ok => (dl, s, ok)
  | name :: rest, dl, s, ok =>
    let dl2 := if dl.isEmpty then [short_name_to_fcb [46], short_name_to_fcb [46, 46]] else dl
    if dl2.length = 65535 ∧ ¬ dl.isEmpty then (dl2, s, ok)
    else
      match mode with
      | .off => cdl_go mode rest (dl2 ++ [short_name_to_fcb name]) s ok
      | .ram =>
        let r := file_name_to_83 name s
        cdl_go mode rest (dl2 ++ [r.2.1]) r.2.2 (ok && r.1)

/-- Drive::Item::create_directory_list: starts from a cleared listing and a
cleared fcb_names set.  Returns (FCB names of the listing in order, the
fcb_names witness set, conjunction of all file_name_to_83 success flags). -/
def create_directory_list (mode : NameConv) (names : List (List Nat)) :
    List FcbName × List FcbName × Bool :=
  cdl_go mode names [] [] true

/-! ### SET_ATTRS with attribute modes (spec §4.4) -/

/-- Attribute mode of a drive (declared in fs.hpp as AttrsMode). -/
inductive AttrsMode
  | auto
  | ignore
  | native
  | inExtended
deriving Repr, DecidableEq

/-- Modelled from the spec: the attrs_mode dispatch of Drive::set_item_attrs.
fs.hpp declares `AttrsMode` with `IGNORE` but the implementation that
consults it is not among the provided sources (the provided fs.cpp predates
it and guards on is_on_fat() instead); spec §4.4: under IGNORE "read
synthesizes; write is a no-op", and §4.2.5: "Set-attrs is a no-op when the
drive's attribute mode is IGNORE".  All other modes delegate to the platform
attribute backend, which may fail. -/
def set_item_attrs_model {σ : Type} (mode : AttrsMode)
    (backend : σ → List Nat → Nat → Except Unit σ)
    (fs : σ) (path : List Nat) (attrs : Nat) : Except Unit σ :=
  match mode with
  | .ignore => .ok fs
  | _ => backend fs path attrs

/-- DOS extended error codes observed by the engine (shared/dos.h names). -/
inductive DosErr
  | noError
  | fileNotFound
  | pathNotFound
  | accessDenied
  | writeFault
  | noMoreFiles
deriving Repr, DecidableEq

/-- INT2F_SET_ATTRS handler (netmount-server.cpp lines 325-345): `ax` starts
as NO_ERROR and is overwritten with FILE_NOT_FOUND exactly when
set_item_attrs throws; the state is unchanged on failure. -/
def set_attrs_handler {σ : Type} (mode : AttrsMode)
    (backend : σ → List Nat → Nat → Except Unit σ)
    (fs : σ) (path : List Nat) (attrs : Nat) : DosErr × σ :=
  match set_item_attrs_model mode backend fs path attrs with
  | .ok fs2 => (.noError, fs2)
  | .error _ => (.fileNotFound, fs)

/-! ### FIND_FIRST handler (netmount-server.cpp, INT2F_FIND_FIRST) -/

/-- INT2F_FIND_FIRST handler control flow (netmount-server.cpp lines
425-480).  `lookup` abstracts the try block: `.error` when
create_server_path or get_handle throws (the source then sets the handle to
0xFFFF), otherwise the pair (directory exists, handle).  `find` abstracts
fs.find_file on the obtained handle, returning the matched entry and its
index.  The result is the `ax` error code and the optional reply body
(entry, directory handle, entry index). -/
def find_first_handler (lookup : Except Unit (Bool × Nat))
    (find : Nat → Option (DirEntry × Nat)) : DosErr × Option (DirEntry × Nat × Nat) :=
  match lookup with
  | .ok (false, _) => (.noMoreFiles, none)
  | .ok (true, h) =>
    if h = 0xFFFF then (.noMoreFiles, none)
    else
      match find h with
      | none => (.noMoreFiles, none)
      | some r => (.noError, some (r.1, h, r.2))
  | .error _ => (.noMoreFiles, none)

/-! ### SEEK_FROM_END handler (netmount-server.cpp, INT2F_SEEK_FROM_END) -/

/-- INT2F_SEEK_FROM_END handler (netmount-server.cpp lines 523-559).
`offset_lo`/`offset_hi` are the two little-endian uint16 halves of the
offset; the source assembles `int32_t offset = (hi << 16) + lo` in int32
arithmetic, zeroes a positive offset, asks get_file_size (whose int32 result
is `fsize`, -1 on error), adds the size, clamps a negative result to 0 and
replies with the two 16-bit halves of the position.  `none` means `ax` was
set to FILE_NOT_FOUND. -/
def seek_from_end (offset_lo offset_hi : Nat) (fsize : Int) : Option (Nat × Nat) :=
  let offset0 : Int := if offset_hi < 32768 then (offset_hi : Int) * 65536 - 0
    else (offset_hi : Int) * 65536 - 4294967296
  let offset1 : Int := offset0 + (offset_lo : Int)
  let offset2 : Int := if 0 < offset1 then 0 else offset1
  if fsize < 0 then none
  else
    let pos := offset2 + fsize
    let pos2 := if pos < 0 then 0 else pos
    some (pos2.toNat % 65536, pos2.toNat / 65536 % 65536)

/-- Specification-side two's-complement reading of a 32-bit value. -/
def toSigned32 (n : Nat) : Int := if n < 2 ^ 31 then (n : Int) else (n : Int) - 2 ^ 32

/-! ### Concrete inputs used by counterexamples and witnesses -/

/-- Datagram of 17 bytes whose length_flags word is 0x0811: the advertised
15-bit length is 0x0811 = 2065 (checksum flag clear), yet the low 11 bits
give 17. -/
def c1_packet : Bytes :=
  [DRIVE_PROTO_VERSION, 0, 0, 2, 0, 0, 0x11, 0x08,
   DRIVE_PROTO_MAGIC % 256, DRIVE_PROTO_MAGIC / 256, 0, 0, 0, 0, 0, 0, 0]

/-- Cache entry holding a 10-byte reply that was finalized with the checksum
flag set (bit 7 of byte 7; checksum of the empty body is 0). -/
def c2_entry : ReplyInfo :=
  ⟨[DRIVE_PROTO_VERSION, 7, 0, 2, 0, 0, 10, 0x80, 0, 0], 10, 0⟩

/-- Retransmitted request with the same sequence number 7 but with the
checksum flag clear (magic constant in the checksum field). -/
def c2_request : Bytes :=
  [DRIVE_PROTO_VERSION, 7, 0, 2, 0, 0, 10, 0, DRIVE_PROTO_MAGIC % 256, DRIVE_PROTO_MAGIC / 256]

/-- Cache entry holding a 10-byte reply finalized with the checksum flag
clear; re-finalizing it for a flag-clear retry reproduces it byte for byte. -/
def c2w_entry : ReplyInfo :=
  ⟨[DRIVE_PROTO_VERSION, 5, 0, 2, 0, 0, 10, 0,
    DRIVE_PROTO_MAGIC % 256, DRIVE_PROTO_MAGIC / 256], 10, 0⟩

/-- Retry request with sequence number 5 and the checksum flag clear. -/
def c2w_request : Bytes := c2w_entry.packet

/-- Valid 12-byte datagram with the checksum flag set and a correct BSD
checksum over its two body bytes [1, 2]. -/
def c3w_packet : Bytes :=
  [DRIVE_PROTO_VERSION, 0, 0, 2, 0, 0, 12, 0x80, 0x02, 0x80, 1, 2]

/-- Synthesized '.' entry of a directory listing (FCB base ".       "). -/
def dot_entry : DirEntry := ⟨⟨[46, 32, 32, 32, 32, 32, 32, 32], [32, 32, 32]⟩, FAT_DIRECTORY⟩

/-- FCB mask of all wildcards (???????? ???). -/
def mask_all : FcbName := ⟨List.replicate 8 63, List.replicate 3 63⟩

/-- Populated cache entry with sequence number 9. -/
def c10_entry : ReplyInfo :=
  ⟨[DRIVE_PROTO_VERSION, 9, 0, 2, 0, 0, 10, 0, DRIVE_PROTO_MAGIC % 256, DRIVE_PROTO_MAGIC / 256], 10, 0⟩

/-- Valid datagram with sequence number 9 whose drive byte is 0 (low 5 bits
0, outside 2..25). -/
def c10_request : Bytes :=
  [DRIVE_PROTO_VERSION, 9, 0, 0, 0, 0, 10, 0, DRIVE_PROTO_MAGIC % 256, DRIVE_PROTO_MAGIC / 256]

/-- Empty cache entry (length 0 marks invalid content). -/
def c10w_entry : ReplyInfo := ⟨List.replicate 10 0, 0, 0⟩

/-- Valid datagram whose drive byte is 0 (low 5 bits 0, outside 2..25). -/
def c10w_request : Bytes :=
  [DRIVE_PROTO_VERSION, 1, 0, 0, 0, 0, 10, 0, DRIVE_PROTO_MAGIC % 256, DRIVE_PROTO_MAGIC / 256]

/-- Specification-side seek position of claim C7: `size + min(offset, 0)`
clamped below at 0, where offset is the 32-bit signed value assembled from
the two little-endian uint16 halves. -/
def seek_spec_pos (lo hi : Nat) (fsize : Int) : Int :=
  max 0 (fsize + min (toSigned32 (65536 * hi + lo)) 0)

/-- Invariant of the create_directory_list loop state in RAM mode: either
nothing has been enumerated yet, or the listing starts with the synthesized
'.' and '..' entries followed by the file entries `es`, the fcb_names set
holds exactly the names of `es`, the listing has no duplicate FCB name, and
no file entry's FCB base starts with a '.' byte. -/
def CdlInv (dl s : List FcbName) : Prop :=
  (dl = [] ∧ s = []) ∨
    ∃ es, dl = short_name_to_fcb [46] :: short_name_to_fcb [46, 46] :: es ∧
      s.Perm es ∧ dl.Nodup ∧ ∀ f ∈ es, f.base.headD 0 ≠ 46

/-! ### Claim C1 -/

/-- C1 (code bug): the receive pipeline validates and truncates using only the
low 11 bits of `length_flags` (`& 0x7FF` at netmount-server.cpp:1003), not the
low 15 bits the protocol assigns to the length (the send path of the same file
packs the length into bits 0..14): the 17-byte datagram `c1_packet` advertises
the 15-bit length 2065 > 17, so per the claim it must be dropped, yet the
pipeline reads length 17 and accepts it. -/
theorem c1_eleven_bit_length_mask :
    validate_packet c1_packet = some c1_packet ∧
      le16 c1_packet 6 &&& 0x7FFF = 2065 ∧ c1_packet.length = 17 := by decide

/-! ### Claim C5 -/

/-- C5 (code bug): the collision loop `for (counter = 1; counter < 9999;
++counter)` of file_name_to_83 never reaches N = 9999: entered at counter
9999 it fails immediately, for every buffer state, base length, extension and
even an arbitrary used-name set in which the `~9999` name may well be free,
whereas the claim (and the failure comment in the source) says N = 9999 is
still tried and only exceeding it fails. -/
theorem c5_loop_never_tries_9999 (base_buf : List Nat) (base_len : Nat)
    (used : List FcbName) (ext_buf : List Nat) :
    suffix_loop 9999 base_buf base_len used ext_buf = (false, ⟨base_buf, ext_buf⟩, used) := rfl

/-! ### Claim C9 -/

/-- C9: on a drive whose attribute mode is IGNORE, a SET_ATTRS request is a
no-op: for every attribute backend, filesystem state, path and attribute
byte, the handler leaves `ax` at NO_ERROR and returns the state unchanged. -/
theorem c9_set_attrs_ignore_noop {σ : Type} (backend : σ → List Nat → Nat → Except Unit σ)
    (fs : σ) (path : List Nat) (attrs : Nat) :
    set_attrs_handler AttrsMode.ignore backend fs path attrs = (DosErr.noError, fs) := rfl

/-! ### Claim C6 -/

/-- C6: every failing FIND_FIRST — searched directory missing, lookup
exception, error handle, or no entry matching mask and attribute filter —
answers with ax = NO_MORE_FILES and never with FILE_NOT_FOUND. -/
theorem c6_find_first_fail_no_more_files (lookup : Except Unit (Bool × Nat))
    (find : Nat → Option (DirEntry × Nat))
    (h : (find_first_handler lookup find).2 = none) :
    (find_first_handler lookup find).1 = DosErr.noMoreFiles ∧
      (find_first_handler lookup find).1 ≠ DosErr.fileNotFound := by
  have hne : DosErr.noMoreFiles ≠ DosErr.fileNotFound := by decide
  rcases lookup with u | p
  · exact ⟨rfl, hne⟩
  · obtain ⟨b, hd⟩ := p
    cases b
    · exact ⟨rfl, hne⟩
    · by_cases hh : hd = 0xFFFF
      · refine ⟨?_, ?_⟩ <;> simp [find_first_handler, if_pos hh]
      · cases hfind : find hd with
        | none =>
          refine ⟨?_, ?_⟩ <;> simp [find_first_handler, if_neg hh, hfind]
        | some r =>
          simp only [find_first_handler, if_neg hh, hfind] at h
          exact Option.noConfusion h

/-- C6 witness: the directory-does-not-exist outcome. -/
theorem c6_witness :
    (find_first_handler (.ok (false, 3)) (fun _ => none)).1 = DosErr.noMoreFiles ∧
      (find_first_handler (.ok (false, 3)) (fun _ => none)).1 ≠ DosErr.fileNotFound :=
  c6_find_first_fail_no_more_files (.ok (false, 3)) (fun _ => none) rfl

/-! ### Claim C7 -/

/-- C7: for every SEEK_FROM_END request whose handle's int32 file size is
obtainable (0 ≤ fsize < 2^31), the handler replies, its two 16-bit halves
recombine losslessly to `size + min(offset, 0)` clamped below at 0 — where
`offset` is the 32-bit signed value assembled from the request's two 16-bit
halves — and that position always lies within [0, size]. -/
theorem c7_seek_from_end_clamped (lo hi : Nat) (fsize : Int)
    (hlo : lo < 65536) (hhi : hi < 65536) (h0 : 0 ≤ fsize) (h1 : fsize < 2 ^ 31) :
    seek_from_end lo hi fsize =
      some ((seek_spec_pos lo hi fsize).toNat % 65536,
        (seek_spec_pos lo hi fsize).toNat / 65536 % 65536) ∧
      0 ≤ seek_spec_pos lo hi fsize ∧ seek_spec_pos lo hi fsize ≤ fsize ∧
      ((seek_spec_pos lo hi fsize).toNat % 65536 : Int) +
          65536 * ((seek_spec_pos lo hi fsize).toNat / 65536 % 65536) =
        seek_spec_pos lo hi fsize := by
  simp only [seek_from_end, seek_spec_pos, toSigned32]
  rw [if_neg (by omega)]
  norm_num only
  refine ⟨?_, ?_, ?_, ?_⟩
  · split_ifs <;> (refine congrArg some (Prod.ext ?_ ?_)) <;> simp <;> omega
  · split_ifs <;> omega
  · split_ifs <;> omega
  · split_ifs <;> push_cast <;> omega

/-! ### Claim C3 -/

/-- One step of the source checksum loop equals the specification's rotate
right followed by add, for a 16-bit accumulator. -/
theorem rot_step_eq {res : Nat} (b : Nat) (h : res < 65536) :
    ((res <<< 15 ||| res >>> 1) % 65536 + b) % 65536 = (rotr16 res + b) % 65536 := by
  have e1 : res <<< 15 = 2 ^ 15 * res := by
    rw [Nat.shiftLeft_eq, Nat.mul_comm]
  have e2 : res >>> 1 = res / 2 := by
    rw [Nat.shiftRight_eq_div_pow, pow_one]
  have e3 : res / 2 < 2 ^ 15 := by omega
  have e4 : 2 ^ 15 * res + res / 2 = 2 ^ 15 * res ||| res / 2 := Nat.mul_add_lt_is_or e3 res
  rw [e1, e2, ← e4, rotr16]
  omega

/-- The source checksum fold and the specification fold agree from any
16-bit accumulator. -/
theorem bsd_fold_eq (l : Bytes) :
    ∀ acc, acc < 65536 →
      l.foldl (fun res b => ((res <<< 15 ||| res >>> 1) % 65536 + b) % 65536) acc =
        l.foldl (fun acc b => (rotr16 acc + b) % 65536) acc := by
  induction l with
  | nil => intro acc _; rfl
  | cons c cs ih =>
    intro acc h
    simp only [List.foldl_cons]
    rw [rot_step_eq c h]
    exact ih _ (Nat.mod_lt _ (by norm_num))

/-- bsd_checksum computes exactly the specification's rotate-and-add fold. -/
theorem bsd_checksum_eq_spec (l : Bytes) : bsd_checksum l = bsd_checksum_spec l :=
  bsd_fold_eq l 0 (by norm_num)

/-- C3: the checksum function is the rotate-right-then-add fold modulo 2^16,
and a request that survives the version and length prechecks is accepted iff:
with the checksum flag set, the checksum of every byte after the checksum
field up to the advertised (truncated) length equals the stored checksum
field; with the flag clear, the checksum field equals the magic constant. -/
theorem c3_checksum_acceptance (packet : Bytes)
    (hver : getByte packet 0 = DRIVE_PROTO_VERSION)
    (hlo : HDR_SIZE ≤ le16 packet 6 &&& 0x7FF)
    (hhi : le16 packet 6 &&& 0x7FF ≤ packet.length) :
    ((validate_packet packet).isSome ↔
      if le16 packet 6 >>> 15 ≠ 0 then
        bsd_checksum_spec ((packet.take (le16 packet 6 &&& 0x7FF)).drop HDR_SIZE) =
          le16 packet 8
      else le16 packet 8 = DRIVE_PROTO_MAGIC) := by
  simp only [validate_packet, HDR_SIZE] at *
  rw [if_neg (by omega), if_neg (by simp [hver]), if_neg (by omega), if_neg (by omega)]
  simp only [bsd_checksum_eq_spec]
  split_ifs with hflag hck hmagic <;> simp_all

/-- C3 witness: a concrete 12-byte datagram with the checksum flag set and a
matching checksum is accepted. -/
theorem c3_witness : (validate_packet c3w_packet).isSome :=
  (c3_checksum_acceptance c3w_packet (by decide) (by decide) (by decide)).mpr (by decide)

/-! ### Claims C2 and C10 -/

/-- A datagram accepted by the validation pipeline yields a request that is
the datagram truncated to the advertised length, which is at least the header
size. -/
theorem validate_packet_some {packet req : Bytes}
    (h : validate_packet packet = some req) : HDR_SIZE ≤ req.length := by
  simp only [validate_packet, HDR_SIZE] at h ⊢
  split_ifs at h with h1 h2 h3 h4 h5 h6 h7
  all_goals simp only [Option.some.injEq, reduceCtorEq] at h
  all_goals subst h
  all_goals simp [List.length_take]
  all_goals omega

/-- C2 (counterexample): a populated cache entry stores a reply finalized with
the checksum flag set; a retry with the same sequence number 7 but with the
flag clear hits the cache, yet the bytes sent back are not the stored reply
bytes (the length-flags byte and checksum field are re-finalized for the
incoming flag). -/
theorem c2_counterexample :
    0 < c2_entry.len ∧ getByte c2_entry.packet 1 = getByte c2_request 1 ∧
      validate_packet c2_request = some c2_request ∧
      (handle_datagram (fun _ => true) (fun (fs : Nat) _ r => (fs, r, none))
          c2_entry 0 c2_request 5).1 ≠ some (c2_entry.packet.take c2_entry.len) := by decide

/-- C2 (amended): on a reply-cache hit (populated entry, matching sequence
number) the engine performs no dispatch — the filesystem state is unchanged
for every possible dispatch function — and resends the stored reply after
re-finalizing its header for the incoming request's checksum flag; whenever
that re-finalization reproduces the stored bytes (in particular when the
retry carries the same checksum flag as the stored reply), the resent
datagram is byte-identical to the stored one. -/
theorem c2_cache_hit_resend {σ : Type} (shared : Nat → Bool)
    (dispatch : σ → Bytes → Bytes → σ × Bytes × Option Nat)
    (entry : ReplyInfo) (fs : σ) (datagram req : Bytes) (now : Nat)
    (hv : validate_packet datagram = some req)
    (hlen : 0 < entry.len)
    (hseq : getByte entry.packet 1 = getByte req 1) :
    (handle_datagram shared dispatch entry fs datagram now).2.2 = fs ∧
      (handle_datagram shared dispatch entry fs datagram now).1 =
        some ((finalize_header (le16 datagram 6 >>> 15 != 0) entry.packet entry.len).take
          entry.len) ∧
      (finalize_header (le16 datagram 6 >>> 15 != 0) entry.packet entry.len = entry.packet →
        (handle_datagram shared dispatch entry fs datagram now).1 =
          some (entry.packet.take entry.len)) := by
  have hrl := validate_packet_some hv
  have h1 : process_request shared dispatch entry fs req = (entry, fs, some entry.len) := by
    unfold process_request
    rw [if_neg (by omega), if_pos ⟨hlen, hseq⟩]
  simp only [handle_datagram, hv, h1, hlen, if_true]
  refine ⟨by first | rfl | trivial, by first | rfl | trivial, fun hfin => ?_⟩
  rw [hfin]

/-- C2 witness: a flag-clear retry of a flag-clear stored reply is resent
byte-identically. -/
theorem c2_witness :
    (handle_datagram (fun _ => true) (fun (fs : Nat) _ r => (fs, r, none))
        c2w_entry 0 c2w_request 3).1 = some (c2w_entry.packet.take c2w_entry.len) :=
  (c2_cache_hit_resend (fun _ => true) (fun (fs : Nat) _ r => (fs, r, none))
      c2w_entry 0 c2w_request c2w_request 3 (by decide) (by decide) (by decide)).2.2 (by decide)

/-- C10 (counterexample): a request whose drive byte's low 5 bits are 0
(outside 2..25) is still answered when it hits the reply cache: the
sequence-number check precedes the drive check, so the claim's unconditional
drop does not hold. -/
theorem c10_counterexample :
    getByte c10_request 3 &&& 0x1F < 2 ∧
      (handle_datagram (fun _ => true) (fun (fs : Nat) _ r => (fs, r, none))
          c10_entry 0 c10_request 0).1 ≠ none := by decide

/-- C10 (amended): for every validated request that does not hit the reply
cache, if the drive byte's low 5 bits are outside 2..25 or the referenced
drive is not shared, the engine drops the datagram: nothing is sent, the
cache entry is invalidated (length 0), and the filesystem state is unchanged
for every possible dispatch function. -/
theorem c10_drive_check_drops {σ : Type} (shared : Nat → Bool)
    (dispatch : σ → Bytes → Bytes → σ × Bytes × Option Nat)
    (entry : ReplyInfo) (fs : σ) (datagram req : Bytes) (now : Nat)
    (hv : validate_packet datagram = some req)
    (hmiss : ¬(0 < entry.len ∧ getByte entry.packet 1 = getByte req 1))
    (hdrv : getByte req 3 &&& 0x1F < 2 ∨ MAX_DRIVERS_COUNT ≤ getByte req 3 &&& 0x1F ∨
      shared (getByte req 3 &&& 0x1F) = false) :
    (handle_datagram shared dispatch entry fs datagram now).1 = none ∧
      (handle_datagram shared dispatch entry fs datagram now).2.2 = fs ∧
      (handle_datagram shared dispatch entry fs datagram now).2.1.len = 0 := by
  have hrl := validate_packet_some hv
  have h1 : process_request shared dispatch entry fs req =
      ({ entry with packet := req.take HDR_SIZE ++ entry.packet.drop HDR_SIZE }, fs, none) := by
    unfold process_request
    rw [if_neg (by omega), if_neg hmiss]
    by_cases hA : getByte req 3 &&& 0x1F < 2 ∨ MAX_DRIVERS_COUNT ≤ getByte req 3 &&& 0x1F
    · rw [if_pos hA]
    · have hsh : shared (getByte req 3 &&& 0x1F) = false := by tauto
      rw [if_neg hA, if_pos (by simp [hsh])]
  simp only [handle_datagram, hv, h1]
  exact ⟨by first | rfl | trivial, by first | rfl | trivial, by first | rfl | trivial⟩

/-- C10 witness: a cache-missing request for drive byte 0 is dropped with no
state change. -/
theorem c10_witness :
    (handle_datagram (fun _ => true) (fun (fs : Nat) _ r => (fs, r, none))
        c10w_entry 0 c10w_request 0).1 = none ∧
      (handle_datagram (fun _ => true) (fun (fs : Nat) _ r => (fs, r, none))
          c10w_entry 0 c10w_request 0).2.2 = 0 ∧
      (handle_datagram (fun _ => true) (fun (fs : Nat) _ r => (fs, r, none))
          c10w_entry 0 c10w_request 0).2.1.len = 0 :=
  c10_drive_check_drops (fun _ => true) (fun (fs : Nat) _ r => (fs, r, none))
    c10w_entry 0 c10w_request c10w_request 0 (by decide) (by decide) (Or.inl (by decide))

/-! ### Claim C4 -/

/-- Characterization of the find_file scan loop: run on the suffix
`l0.drop n` with running index `n`, it finds exactly the first index at or
after `n` whose entry satisfies `p`. -/
theorem find_from_go_first {p : DirEntry → Bool} (l0 : List DirEntry) :
    ∀ (rest : List DirEntry) (n : Nat), rest = l0.drop n →
      (∀ k, find_from_go p rest n = some k →
        n ≤ k ∧ k < l0.length ∧ p (l0.getD k dentry0) = true ∧
          ∀ m, n ≤ m → m < k → p (l0.getD m dentry0) = false) ∧
      (find_from_go p rest n = none →
        ∀ m, n ≤ m → m < l0.length → p (l0.getD m dentry0) = false) := by
  intro rest
  induction rest generalizing l0 with
  | nil =>
    intro n hrest
    constructor
    · intro k hk
      exact absurd hk (by simp [find_from_go])
    · intro _ m hm hml
      have : l0.length ≤ n := List.drop_eq_nil_iff.mp hrest.symm
      omega
  | cons e rest ih =>
    intro n hrest
    have hn : l0[n]? = some e := by
      have h0 : (l0.drop n)[0]? = some e := by rw [← hrest]; simp
      rw [List.getElem?_drop] at h0
      simpa using h0
    have hnl : n < l0.length := (List.getElem?_eq_some_iff.mp hn).1
    have hget : l0.getD n dentry0 = e := by
      rw [List.getD_eq_getElem?_getD, hn]
      rfl
    have hrest2 : rest = l0.drop (n + 1) := by
      have ht : (l0.drop n).tail = l0.drop (n + 1) := by
        rw [← List.drop_one, List.drop_drop]
      rw [← hrest] at ht
      simpa using ht
    constructor
    · intro k hk
      simp only [find_from_go] at hk
      by_cases hpe : p e
      · rw [if_pos hpe] at hk
        obtain rfl : n = k := by simpa using hk
        exact ⟨Nat.le_refl n, hnl, by rw [hget]; exact hpe, fun m h1 h2 => by omega⟩
      · rw [if_neg hpe] at hk
        obtain ⟨h1, h2, h3, h4⟩ := (ih l0 (n + 1) hrest2).1 k hk
        have hpe2 : p e = false := by simpa using hpe
        refine ⟨by omega, h2, h3, fun m hm1 hm2 => ?_⟩
        by_cases hmn : m = n
        · subst hmn
          rw [hget]
          exact hpe2
        · exact h4 m (by omega) hm2
    · intro hk m hm1 hm2
      simp only [find_from_go] at hk
      by_cases hpe : p e
      · rw [if_pos hpe] at hk
        exact absurd hk (by simp)
      · rw [if_neg hpe] at hk
        have hpe2 : p e = false := by simpa using hpe
        by_cases hmn : m = n
        · subst hmn
          rw [hget]
          exact hpe2
        · exact (ih l0 (n + 1) hrest2).2 hk m (by omega) hm2

/-- C4 (counterexample): in the drive root, the synthesized '.' entry matches
the all-wildcard mask and passes the DIRECTORY attribute filter at index 0,
so per the claim find_file must return it, yet the code skips it and reports
no match. -/
theorem c4_counterexample :
    find_file true mask_all FAT_DIRECTORY [dot_entry] 0 = none ∧
      claim_first_match mask_all FAT_DIRECTORY [dot_entry] 0 = some 0 := by decide

/-- C4 (amended): find_file returns the first entry at index ≥ nth that
passes the scan condition — mask match ('?' per byte, others compared
case-insensitively) and the attribute filter, except that in the drive-root
directory entries whose FCB base begins with '.' are skipped — and on success
returns nth set to one past the matched index, so the returned nth strictly
exceeds the old one; on failure no entry at index ≥ nth passes. -/
theorem c4_find_file_first_match (is_root_dir : Bool) (tmpl : FcbName) (attr : Nat)
    (l : List DirEntry) (nth : Nat) :
    (match find_file is_root_dir tmpl attr l nth with
      | some r =>
        nth < r.1 ∧ r.1 ≤ l.length ∧ r.2 = l.getD (r.1 - 1) dentry0 ∧
          find_passes is_root_dir tmpl attr r.2 = true ∧
          ∀ m, nth ≤ m → m < r.1 - 1 →
            find_passes is_root_dir tmpl attr (l.getD m dentry0) = false
      | none =>
        ∀ m, nth ≤ m → m < l.length →
          find_passes is_root_dir tmpl attr (l.getD m dentry0) = false) := by
  have hspec := @find_from_go_first (find_passes is_root_dir tmpl attr) l (l.drop nth) nth rfl
  cases hf : find_from_go (find_passes is_root_dir tmpl attr) (l.drop nth) nth with
  | none =>
    simp only [find_file, find_from, hf]
    exact hspec.2 hf
  | some k =>
    obtain ⟨h1, h2, h3, h4⟩ := hspec.1 k hf
    simp only [find_file, find_from, hf, Nat.add_sub_cancel]
    exact ⟨by omega, by omega, by first | rfl | trivial, h3, h4⟩

/-! ### Claim C8 -/

/-- No allowed special character is the '.' byte. -/
theorem allowed_special_ne_dot : ∀ c ∈ allowed_special, c ≠ 46 := by decide

/-- The sanitize loop never emits the '.' byte: every output byte is an
uppercase letter, a digit, an allowed special character or a kept space. -/
theorem sanitize_go_ne_dot (lastNS : Option Nat) (bufSize : Nat) :
    ∀ (input : List Nat) (idx : Nat) (out : List Nat) (sh : Bool),
      (∀ b ∈ out, b ≠ 46) →
      ∀ b ∈ (sanitize_go lastNS bufSize input idx out sh).1, b ≠ 46 := by
  intro input
  induction input with
  | nil =>
    intro idx out sh hout
    simpa [sanitize_go] using hout
  | cons c rest ih =>
    intro idx out sh hout
    simp only [sanitize_go]
    split_ifs with h1 h2 h3 h4
    · simpa using hout
    · refine ih _ _ _ ?_
      intro b hb
      rcases List.mem_append.mp hb with hb | hb
      · exact hout b hb
      · have hbc : b = c := by simpa using hb
        subst hbc
        rcases h2 with h | h | h
        · omega
        · omega
        · exact allowed_special_ne_dot b h
    · refine ih _ _ _ ?_
      intro b hb
      rcases List.mem_append.mp hb with hb | hb
      · exact hout b hb
      · have hbc : b = c - 32 := by simpa using hb
        omega
    · refine ih _ _ _ ?_
      intro b hb
      rcases List.mem_append.mp hb with hb | hb
      · exact hout b hb
      · have hbc : b = c := by simpa using hb
        obtain ⟨hc, -⟩ := h4
        omega
    · exact ih _ _ _ hout

/-- All bytes of a sanitized, blank-padded field differ from the '.' byte. -/
theorem sanitize_ne_dot (input : List Nat) (bufSize : Nat) :
    ∀ b ∈ (sanitize_short_name input bufSize).2.2, b ≠ 46 := by
  intro b hb
  unfold sanitize_short_name at hb
  simp only at hb
  rcases List.mem_append.mp hb with hb | hb
  · exact sanitize_go_ne_dot _ _ input 0 [] false (by simp) b hb
  · have : b = 32 := List.eq_of_mem_replicate hb
    omega

/-- Digit bytes written by the suffix loop are in 48..57. -/
theorem dec_digits_range (n : Nat) : ∀ b ∈ dec_digits n, 48 ≤ b ∧ b ≤ 57 := by
  intro b hb
  unfold dec_digits at hb
  split_ifs at hb <;> simp [List.mem_append] at hb <;> omega

/-- writeAt only introduces bytes from the written value list. -/
theorem writeAt_mem : ∀ (buf : List Nat) (i : Nat) (vs : List Nat) (x : Nat),
    x ∈ writeAt buf i vs → x ∈ buf ∨ x ∈ vs := by
  intro buf
  induction buf with
  | nil =>
    intro i vs x hx
    cases vs with
    | nil => simp [writeAt] at hx
    | cons v vs => simp [writeAt] at hx
  | cons b bs ih =>
    intro i vs x hx
    cases vs with
    | nil => exact Or.inl (by simpa [writeAt] using hx)
    | cons v vs =>
      cases i with
      | zero =>
        simp only [writeAt, List.mem_cons] at hx ⊢
        rcases hx with rfl | hx
        · exact Or.inr (Or.inl rfl)
        · rcases ih 0 vs x hx with h | h
          · exact Or.inl (Or.inr h)
          · exact Or.inr (Or.inr h)
      | succ i =>
        simp only [writeAt, List.mem_cons] at hx ⊢
        rcases hx with rfl | hx
        · exact Or.inl (Or.inl rfl)
        · rcases ih i (v :: vs) x hx with h | h
          · exact Or.inl (Or.inr h)
          · exact Or.inr (by simpa using h)

/-- A suffixed attempt buffer contains no '.' byte when the incoming buffer
contains none: only `~` (126) and digits are written over it. -/
theorem suffix_attempt_ne_dot {base_buf : List Nat} (hbuf : ∀ b ∈ base_buf, b ≠ 46)
    (base_len counter : Nat) : ∀ b ∈ suffix_attempt base_buf base_len counter, b ≠ 46 := by
  intro b hb
  rcases writeAt_mem _ _ _ _ hb with h | h
  · exact hbuf b h
  · rcases List.mem_cons.mp h with rfl | h
    · omega
    · have := dec_digits_range counter b h
      omega

/-- On success the collision loop accepts a name that was not in the set,
inserts exactly that name, and its base buffer contains no '.' byte. -/
theorem suffix_loop_go_fresh (ext_buf : List Nat) :
    ∀ (fuel counter : Nat) (base_buf : List Nat) (base_len : Nat) (used : List FcbName),
      (∀ b ∈ base_buf, b ≠ 46) →
      (suffix_loop_go ext_buf fuel counter base_buf base_len used).1 = true →
      (suffix_loop_go ext_buf fuel counter base_buf base_len used).2.1 ∉ used ∧
        (suffix_loop_go ext_buf fuel counter base_buf base_len used).2.2 =
          (suffix_loop_go ext_buf fuel counter base_buf base_len used).2.1 :: used ∧
        ∀ b ∈ (suffix_loop_go ext_buf fuel counter base_buf base_len used).2.1.base, b ≠ 46 := by
  intro fuel
  induction fuel with
  | zero =>
    intro counter base_buf base_len used hbuf hok
    simp [suffix_loop_go] at hok
  | succ fuel ih =>
    intro counter base_buf base_len used hbuf hok
    have hbuf2 : ∀ b ∈ suffix_attempt base_buf base_len counter, b ≠ 46 :=
      suffix_attempt_ne_dot hbuf base_len counter
    by_cases hmem :
        (⟨suffix_attempt base_buf base_len counter, ext_buf⟩ : FcbName) ∈ used
    · simp only [suffix_loop_go, set_insert, if_pos hmem] at hok ⊢
      exact ih (counter + 1) (suffix_attempt base_buf base_len counter)
        (trimmed_base_len base_len counter) used hbuf2 hok
    · simp only [suffix_loop_go, set_insert, if_neg hmem] at hok ⊢
      exact ⟨hmem, by first | rfl | trivial, hbuf2⟩

/-- On success file_name_to_83 returns a name not previously in the set,
inserts exactly it, and its base contains no '.' byte. -/
theorem file_name_to_83_fresh (name : List Nat) (used : List FcbName)
    (hok : (file_name_to_83 name used).1 = true) :
    (file_name_to_83 name used).2.1 ∉ used ∧
      (file_name_to_83 name used).2.2 = (file_name_to_83 name used).2.1 :: used ∧
      ∀ b ∈ (file_name_to_83 name used).2.1.base, b ≠ 46 := by
  have hbase : ∀ b ∈ (sanitize_short_name (split_last_dot name).1 8).2.2, b ≠ 46 :=
    sanitize_ne_dot _ _
  by_cases hsh :
      (!(sanitize_short_name (split_last_dot name).1 8).2.1 &&
        !(sanitize_short_name (split_last_dot name).2 3).2.1) = true
  · by_cases hmem :
        (⟨(sanitize_short_name (split_last_dot name).1 8).2.2,
          (sanitize_short_name (split_last_dot name).2 3).2.2⟩ : FcbName) ∈ used
    · simp only [file_name_to_83, hsh, if_true, set_insert, if_pos hmem, suffix_loop] at hok ⊢
      exact suffix_loop_go_fresh _ _ _ _ _ _ hbase hok
    · simp only [file_name_to_83, hsh, if_true, set_insert, if_neg hmem] at hok ⊢
      exact ⟨hmem, by first | rfl | trivial, hbase⟩
  · simp only [file_name_to_83, hsh, if_false, suffix_loop] at hok ⊢
    exact suffix_loop_go_fresh _ _ _ _ _ _ hbase hok

/-- A buffer with no '.' byte does not start with one. -/
theorem headD_ne_dot {buf : List Nat} (h : ∀ b ∈ buf, b ≠ 46) : buf.headD 0 ≠ 46 := by
  cases buf with
  | nil => decide
  | cons a l => exact h a (by simp)

/-- Two FCB names whose bases start with different bytes differ. -/
theorem ne_of_headD_ne {f g : FcbName} (hf : f.base.headD 0 ≠ 46)
    (hg : g.base.headD 0 = 46) : f ≠ g := by
  intro h
  rw [h] at hf
  exact hf hg

/-- Appending a fresh file entry (name not in the set, base with no '.'
byte) to a listing that satisfies the invariant preserves it. -/
theorem CdlInv_extend {es s : List FcbName} (f : FcbName)
    (hperm : s.Perm es)
    (hnd : (short_name_to_fcb [46] :: short_name_to_fcb [46, 46] :: es).Nodup)
    (hhd : ∀ g ∈ es, g.base.headD 0 ≠ 46)
    (hfns : f ∉ s) (hfb : ∀ b ∈ f.base, b ≠ 46) :
    CdlInv ((short_name_to_fcb [46] :: short_name_to_fcb [46, 46] :: es) ++ [f]) (f :: s) := by
  right
  refine ⟨es ++ [f], by simp, ?_, ?_, ?_⟩
  · exact (hperm.cons f).trans (List.perm_append_singleton f es).symm
  · rw [List.nodup_append]
    refine ⟨hnd, List.nodup_singleton f, ?_⟩
    intro a ha hb
    have haf : a = f := by simpa using hb
    subst haf
    rcases List.mem_cons.mp ha with h | h
    · exact ne_of_headD_ne (headD_ne_dot hfb) (by decide) h
    rcases List.mem_cons.mp h with h | h
    · exact ne_of_headD_ne (headD_ne_dot hfb) (by decide) h
    · exact hfns (hperm.mem_iff.mpr h)
  · intro g hg
    rcases List.mem_append.mp hg with h | h
    · exact hhd g h
    · have hgf : g = f := by simpa using h
      subst hgf
      exact headD_ne_dot hfb

/-- The loop's success accumulator is monotone: a true final flag means the
incoming flag was true. -/
theorem cdl_go_ok_true (names : List (List Nat)) :
    ∀ dl s ok, (cdl_go .ram names dl s ok).2.2 = true → ok = true := by
  induction names with
  | nil =>
    intro dl s ok h
    exact h
  | cons name rest ih =>
    intro dl s ok h
    simp only [cdl_go] at h
    split_ifs at h
    all_goals first
      | exact h
      | exact (Bool.and_eq_true_iff.mp (ih _ _ _ h)).1

/-- The create_directory_list loop preserves the invariant whenever every
file_name_to_83 call on the run succeeds. -/
theorem cdl_go_inv (names : List (List Nat)) :
    ∀ dl s ok, CdlInv dl s → (cdl_go .ram names dl s ok).2.2 = true →
      CdlInv (cdl_go .ram names dl s ok).1 (cdl_go .ram names dl s ok).2.1 := by
  induction names with
  | nil =>
    intro dl s ok hinv _
    exact hinv
  | cons name rest ih =>
    intro dl s ok hinv hok
    rcases hinv with ⟨rfl, rfl⟩ | ⟨es, rfl, hperm, hnd, hhd⟩
    · simp only [cdl_go, List.isEmpty_nil, if_true] at hok ⊢
      rw [if_neg (by simp)] at hok ⊢
      have hok1 : (file_name_to_83 name []).1 = true := by
        have h2 := cdl_go_ok_true rest _ _ _ hok
        exact (Bool.and_eq_true_iff.mp h2).2
      obtain ⟨hni, hins, hbytes⟩ := file_name_to_83_fresh name [] hok1
      refine ih _ _ _ ?_ hok
      rw [hins]
      exact CdlInv_extend _ (List.Perm.refl _) (by decide) (by simp) hni hbytes
    · simp only [cdl_go, List.isEmpty_cons, if_false] at hok ⊢
      by_cases hbr :
          (short_name_to_fcb [46] :: short_name_to_fcb [46, 46] :: es).length = 65535
      · rw [if_pos (by simpa using hbr)] at hok ⊢
        exact Or.inr ⟨es, rfl, hperm, hnd, hhd⟩
      · rw [if_neg (by simpa using hbr)] at hok ⊢
        have hok1 : (file_name_to_83 name s).1 = true := by
          have h2 := cdl_go_ok_true rest _ _ _ hok
          exact (Bool.and_eq_true_iff.mp h2).2
        obtain ⟨hni, hins, hbytes⟩ := file_name_to_83_fresh name s hok1
        refine ih _ _ _ ?_ hok
        rw [hins]
        exact CdlInv_extend _ hperm hnd hhd hni hbytes

/-- The invariant yields the amended claim's conclusion. -/
theorem CdlInv_concl {dl s : List FcbName} (h : CdlInv dl s) :
    dl.Nodup ∧ s.Perm (dl.drop 2) := by
  rcases h with ⟨rfl, rfl⟩ | ⟨es, rfl, hperm, hnd, _⟩
  · exact ⟨List.nodup_nil, List.Perm.refl _⟩
  · exact ⟨hnd, by simpa using hperm⟩

/-- C8 (counterexample): in RAM mode on a directory holding the single file
"a", the synthesized '.' entry is in the listing but its FCB name is not in
the fcb_names witness set, so the set does not contain exactly the listing's
names. -/
theorem c8_counterexample :
    short_name_to_fcb [46] ∈ (create_directory_list .ram [[97]]).1 ∧
      short_name_to_fcb [46] ∉ (create_directory_list .ram [[97]]).2.1 := by decide

/-- C8 (amended): after a successful RAM-mode run of create_directory_list in
which every 8.3 synthesis succeeded, the listing's FCB names are pairwise
distinct, and the fcb_names witness set holds exactly the FCB names of the
entries other than the two synthesized '.' and '..' entries. -/
theorem c8_listing_names (names : List (List Nat))
    (hok : (create_directory_list .ram names).2.2 = true) :
    (create_directory_list .ram names).1.Nodup ∧
      (create_directory_list .ram names).2.1.Perm
        ((create_directory_list .ram names).1.drop 2) :=
  CdlInv_concl (cdl_go_inv names [] [] true (Or.inl ⟨rfl, rfl⟩) hok)

/-- C8 witness: the single-file directory run instantiates the amended claim. -/
theorem c8_witness :
    (create_directory_list .ram [[97]]).1.Nodup ∧
      (create_directory_list .ram [[97]]).2.1.Perm
        ((create_directory_list .ram [[97]]).1.drop 2) :=
  c8_listing_names [[97]] (by decide)

/-- C7 witness: seeking -5 from the end of a 100-byte file yields position
95, within [0, 100]. -/
theorem c7_witness :
    seek_from_end 0xFFFB 0xFFFF 100 =
      some ((seek_spec_pos 0xFFFB 0xFFFF 100).toNat % 65536,
        (seek_spec_pos 0xFFFB 0xFFFF 100).toNat / 65536 % 65536) ∧
      0 ≤ seek_spec_pos 0xFFFB 0xFFFF 100 ∧ seek_spec_pos 0xFFFB 0xFFFF 100 ≤ 100 ∧
      ((seek_spec_pos 0xFFFB 0xFFFF 100).toNat % 65536 : Int) +
          65536 * ((seek_spec_pos 0xFFFB 0xFFFF 100).toNat / 65536 % 65536) =
        seek_spec_pos 0xFFFB 0xFFFF 100 :=
  c7_seek_from_end_clamped 0xFFFB 0xFFFF 100 (by decide) (by decide) (by decide) (by decide)

/-- C4 witness: outside the root directory, the '.' entry itself is a
legitimate first match of the all-wildcard search at index 0. -/
theorem c4_witness : find_passes false mask_all FAT_DIRECTORY dot_entry = true := by
  have h := c4_find_file_first_match false mask_all FAT_DIRECTORY [dot_entry] 0
  simp only [show find_file false mask_all FAT_DIRECTORY [dot_entry] 0 = some (1, dot_entry)
    from by decide] at h
  exact h.2.2.2.1
